import Mathlib

/-!
Verification of the coordinate-transform and viewport core of the
poly-visualizer application (source: src/src/App.tsx).

JavaScript numbers are modelled by the type `XQ`: either NaN, one of the
two infinities, or a finite value represented exactly as a rational.
This is the usual exact-arithmetic idealization of IEEE doubles; all the
properties verified here are order and containment facts that do not
depend on rounding.  The fold in `calculateBounds` genuinely starts from
`Infinity` and `-Infinity`, and `parseFloat` can return `Infinity`, so
the infinite values are part of the observable behaviour and are kept.
-/

namespace PolyVis

/-- A JavaScript number: NaN, negative infinity, positive infinity, or a
finite value (modelled exactly as a rational). -/
inductive XQ where
  | nan : XQ
  | ninf : XQ
  | inf : XQ
  | fin (q : ℚ) : XQ
deriving DecidableEq

/-- JS `Number.isNaN` as a boolean on the model. -/
def XQ.isNaNb : XQ → Bool
  | .nan => true
  | _ => false

/-- Is this JS number finite? -/
def XQ.isFin : XQ → Bool
  | .fin _ => true
  | _ => false

/-- The rational value of a finite JS number (junk value 0 otherwise). -/
def XQ.toQ : XQ → ℚ
  | .fin q => q
  | _ => 0

/-- JS `Math.min`: NaN-propagating minimum. -/
def XQ.min : XQ → XQ → XQ
  | .nan, _ => .nan
  | _, .nan => .nan
  | .ninf, _ => .ninf
  | _, .ninf => .ninf
  | .inf, b => b
  | a, .inf => a
  | .fin a, .fin b => .fin (Min.min a b)

/-- JS `Math.max`: NaN-propagating maximum. -/
def XQ.max : XQ → XQ → XQ
  | .nan, _ => .nan
  | _, .nan => .nan
  | .inf, _ => .inf
  | _, .inf => .inf
  | .ninf, b => b
  | a, .ninf => a
  | .fin a, .fin b => .fin (Max.max a b)

/-- JS addition on the model. -/
def XQ.add : XQ → XQ → XQ
  | .nan, _ => .nan
  | _, .nan => .nan
  | .inf, .ninf => .nan
  | .ninf, .inf => .nan
  | .inf, _ => .inf
  | _, .inf => .inf
  | .ninf, _ => .ninf
  | _, .ninf => .ninf
  | .fin a, .fin b => .fin (a + b)

/-- JS subtraction on the model. -/
def XQ.sub : XQ → XQ → XQ
  | .nan, _ => .nan
  | _, .nan => .nan
  | .inf, .inf => .nan
  | .ninf, .ninf => .nan
  | .inf, _ => .inf
  | _, .inf => .ninf
  | .ninf, _ => .ninf
  | _, .ninf => .inf
  | .fin a, .fin b => .fin (a - b)

/-- JS multiplication on the model (0 times an infinity is NaN). -/
def XQ.mul : XQ → XQ → XQ
  | .nan, _ => .nan
  | _, .nan => .nan
  | .inf, .inf => .inf
  | .inf, .ninf => .ninf
  | .ninf, .inf => .ninf
  | .ninf, .ninf => .inf
  | .inf, .fin q => if 0 < q then .inf else if q < 0 then .ninf else .nan
  | .fin q, .inf => if 0 < q then .inf else if q < 0 then .ninf else .nan
  | .ninf, .fin q => if 0 < q then .ninf else if q < 0 then .inf else .nan
  | .fin q, .ninf => if 0 < q then .ninf else if q < 0 then .inf else .nan
  | .fin a, .fin b => .fin (a * b)

/-- JS division on the model (a nonzero finite value divided by zero is a
signed infinity, zero by zero is NaN, ratios of infinities are NaN). -/
def XQ.div : XQ → XQ → XQ
  | .nan, _ => .nan
  | _, .nan => .nan
  | .inf, .inf => .nan
  | .inf, .ninf => .nan
  | .ninf, .inf => .nan
  | .ninf, .ninf => .nan
  | .inf, .fin q => if 0 ≤ q then .inf else .ninf
  | .ninf, .fin q => if 0 ≤ q then .ninf else .inf
  | .fin _, .inf => .fin 0
  | .fin _, .ninf => .fin 0
  | .fin a, .fin b =>
      if b = 0 then (if a = 0 then .nan else if 0 < a then .inf else .ninf)
      else .fin (a / b)

/-- The JS comparison operator on numbers (any comparison with NaN is false). -/
def XQ.leb : XQ → XQ → Bool
  | .nan, _ => false
  | _, .nan => false
  | .ninf, _ => true
  | _, .inf => true
  | .inf, _ => false
  | _, .ninf => false
  | .fin a, .fin b => decide (a ≤ b)

/-- JS strict equality on numbers (NaN is not equal to anything, including itself). -/
def XQ.eqb : XQ → XQ → Bool
  | .nan, _ => false
  | _, .nan => false
  | .inf, .inf => true
  | .ninf, .ninf => true
  | .fin a, .fin b => decide (a = b)
  | _, _ => false

@[simp] theorem XQ.min_fin_fin (a b : ℚ) : XQ.min (.fin a) (.fin b) = .fin (Min.min a b) := rfl
@[simp] theorem XQ.min_inf_fin (b : ℚ) : XQ.min .inf (.fin b) = .fin b := rfl
@[simp] theorem XQ.max_fin_fin (a b : ℚ) : XQ.max (.fin a) (.fin b) = .fin (Max.max a b) := rfl
@[simp] theorem XQ.max_ninf_fin (b : ℚ) : XQ.max .ninf (.fin b) = .fin b := rfl
@[simp] theorem XQ.add_fin_fin (a b : ℚ) : XQ.add (.fin a) (.fin b) = .fin (a + b) := rfl
@[simp] theorem XQ.sub_fin_fin (a b : ℚ) : XQ.sub (.fin a) (.fin b) = .fin (a - b) := rfl
@[simp] theorem XQ.mul_fin_fin (a b : ℚ) : XQ.mul (.fin a) (.fin b) = .fin (a * b) := rfl
@[simp] theorem XQ.eqb_fin_fin (a b : ℚ) : XQ.eqb (.fin a) (.fin b) = decide (a = b) := rfl
@[simp] theorem XQ.leb_fin_fin (a b : ℚ) : XQ.leb (.fin a) (.fin b) = decide (a ≤ b) := rfl
@[simp] theorem XQ.isNaNb_fin (a : ℚ) : XQ.isNaNb (.fin a) = false := rfl

theorem XQ.div_fin_fin_of_ne (a b : ℚ) (hb : b ≠ 0) :
    XQ.div (.fin a) (.fin b) = .fin (a / b) := by
  simp [XQ.div, hb]

/-- A parsed point `{x, z}` of the application.  Both coordinates are JS
numbers; points produced by a successful parse always hold finite values,
but the custom point can hold an infinity (see `parseFloat`). -/
structure Point where
  x : XQ
  z : XQ
deriving DecidableEq

/-- Are both coordinates of a point finite? -/
def Point.finiteB (p : Point) : Bool := p.x.isFin && p.z.isFin

theorem Point.finiteB_x {p : Point} (h : p.finiteB = true) : p.x.isFin = true := by
  simp [Point.finiteB] at h
  exact h.1

theorem Point.finiteB_z {p : Point} (h : p.finiteB = true) : p.z.isFin = true := by
  simp [Point.finiteB] at h
  exact h.2

/-- The rectangle returned by `calculateBounds`. -/
structure Bounds where
  minX : XQ
  minY : XQ
  maxX : XQ
  maxY : XQ
deriving DecidableEq

/-- One step of the min/max fold in `calculateBounds`: fold a single point
into the accumulated bounds.  The source maps `z` directly to the vertical
axis (the comments in App.tsx say "Direct mapping: z -> Y"). -/
def boundsFoldPoint (b : Bounds) (p : Point) : Bounds :=
  { minX := b.minX.min p.x
    maxX := b.maxX.max p.x
    minY := b.minY.min p.z
    maxY := b.maxY.max p.z }

/-- The two nested `forEach` loops of `calculateBounds` plus the
`if (customPoint)` block: fold every polygon point and then the optional
custom point into the accumulator seeded with
`minX = minY = Infinity, maxX = maxY = -Infinity`. -/
def boundsFoldAll (polygons : List (List Point)) (customPoint : Option Point) : Bounds :=
  let b1 := polygons.foldl (fun b poly => poly.foldl boundsFoldPoint b)
    ⟨.inf, .inf, .ninf, .ninf⟩
  match customPoint with
  | some p => boundsFoldPoint b1 p
  | none => b1

/-- The single-point block of `calculateBounds`: when `minX === maxX` and
`minY === maxY` (JS strict equality), widen the rectangle by 5 units on
every side. -/
def expandIfPointB (b : Bounds) : Bounds :=
  if b.minX.eqb b.maxX && b.minY.eqb b.maxY then
    ⟨b.minX.sub (.fin 5), b.minY.sub (.fin 5), b.maxX.add (.fin 5), b.maxY.add (.fin 5)⟩
  else b

/-- The padding block of `calculateBounds`:
`padding = Math.max(maxX - minX, maxY - minY) * 0.1`, subtracted from both
minima and added to both maxima. -/
def padBounds (b : Bounds) : Bounds :=
  let padding := ((b.maxX.sub b.minX).max (b.maxY.sub b.minY)).mul (.fin (1/10))
  ⟨b.minX.sub padding, b.minY.sub padding, b.maxX.add padding, b.maxY.add padding⟩

/-- Shallow embedding of `calculateBounds` from App.tsx lines 75-117:
the fixed default rectangle when there are no polygons and no custom point
(`!polygons.length && !customPoint`); otherwise the min/max fold over all
points, then the degenerate single-point expansion, then the padding. -/
def calculateBounds (polygons : List (List Point)) (customPoint : Option Point) : Bounds :=
  if polygons.length == 0 && customPoint.isNone then
    ⟨.fin 0, .fin 0, .fin 100, .fin 100⟩
  else
    padBounds (expandIfPointB (boundsFoldAll polygons customPoint))

/-- The list of every point `calculateBounds` folds over, in fold order:
all polygon points followed by the custom point when present. -/
def allPoints (polygons : List (List Point)) (customPoint : Option Point) : List Point :=
  polygons.flatten ++ customPoint.toList

/-- The stored view box `{minX, minY, width, height}`. -/
structure ViewBox where
  minX : XQ
  minY : XQ
  width : XQ
  height : XQ
deriving DecidableEq

/-- The view box computed by `updateViewBox` (App.tsx lines 119-131) from a
polygon set and optional custom point: bounds plus width/height derivation. -/
def viewBoxOf (polygons : List (List Point)) (customPoint : Option Point) : ViewBox :=
  let bounds := calculateBounds polygons customPoint
  ⟨bounds.minX, bounds.minY, bounds.maxX.sub bounds.minX, bounds.maxY.sub bounds.minY⟩

theorem XQ.eq_fin_of_isFin {v : XQ} (h : v.isFin = true) : v = .fin v.toQ := by
  cases v <;> simp [XQ.isFin, XQ.toQ] at h ⊢

theorem XQ.exists_fin_of_isFin {v : XQ} (h : v.isFin = true) : ∃ q, v = .fin q :=
  ⟨v.toQ, XQ.eq_fin_of_isFin h⟩

theorem boundsFoldAll_eq_foldl_allPoints (polygons : List (List Point))
    (customPoint : Option Point) :
    boundsFoldAll polygons customPoint
      = (allPoints polygons customPoint).foldl boundsFoldPoint ⟨.inf, .inf, .ninf, .ninf⟩ := by
  cases customPoint with
  | none => simp [boundsFoldAll, allPoints, List.foldl_flatten]
  | some p => simp [boundsFoldAll, allPoints, List.foldl_flatten, List.foldl_append]

theorem foldl_bounds_minX : ∀ (pts : List Point) (b : Bounds),
    (pts.foldl boundsFoldPoint b).minX = pts.foldl (fun a p => a.min p.x) b.minX
  | [], _ => rfl
  | p :: pts, b => by
      simpa [boundsFoldPoint] using foldl_bounds_minX pts (boundsFoldPoint b p)

theorem foldl_bounds_minY : ∀ (pts : List Point) (b : Bounds),
    (pts.foldl boundsFoldPoint b).minY = pts.foldl (fun a p => a.min p.z) b.minY
  | [], _ => rfl
  | p :: pts, b => by
      simpa [boundsFoldPoint] using foldl_bounds_minY pts (boundsFoldPoint b p)

theorem foldl_bounds_maxX : ∀ (pts : List Point) (b : Bounds),
    (pts.foldl boundsFoldPoint b).maxX = pts.foldl (fun a p => a.max p.x) b.maxX
  | [], _ => rfl
  | p :: pts, b => by
      simpa [boundsFoldPoint] using foldl_bounds_maxX pts (boundsFoldPoint b p)

theorem foldl_bounds_maxY : ∀ (pts : List Point) (b : Bounds),
    (pts.foldl boundsFoldPoint b).maxY = pts.foldl (fun a p => a.max p.z) b.maxY
  | [], _ => rfl
  | p :: pts, b => by
      simpa [boundsFoldPoint] using foldl_bounds_maxY pts (boundsFoldPoint b p)

/-- The rational value of the min fold over a nonempty point list, the
coordinate being selected by `g`. -/
def qfoldMin (g : Point → XQ) (p0 : Point) (rest : List Point) : ℚ :=
  rest.foldl (fun a p => Min.min a (g p).toQ) (g p0).toQ

/-- The rational value of the max fold over a nonempty point list. -/
def qfoldMax (g : Point → XQ) (p0 : Point) (rest : List Point) : ℚ :=
  rest.foldl (fun a p => Max.max a (g p).toQ) (g p0).toQ

theorem foldl_min_from_fin (g : Point → XQ) :
    ∀ (pts : List Point), (∀ p ∈ pts, (g p).isFin = true) → ∀ (a : ℚ),
      pts.foldl (fun (acc : XQ) (p : Point) => acc.min (g p)) (.fin a)
        = .fin (pts.foldl (fun acc p => Min.min acc (g p).toQ) a)
  | [], _, _ => rfl
  | p :: pts, h, a => by
      obtain ⟨q0, hq0⟩ := XQ.exists_fin_of_isFin (h p (List.mem_cons_self p pts))
      have ih := foldl_min_from_fin g pts (fun r hr => h r (List.mem_cons_of_mem p hr))
        (Min.min a q0)
      have htq : (g p).toQ = q0 := by rw [hq0]; rfl
      simp only [List.foldl_cons, hq0, htq, XQ.min_fin_fin]
      exact ih

theorem foldl_max_from_fin (g : Point → XQ) :
    ∀ (pts : List Point), (∀ p ∈ pts, (g p).isFin = true) → ∀ (a : ℚ),
      pts.foldl (fun (acc : XQ) (p : Point) => acc.max (g p)) (.fin a)
        = .fin (pts.foldl (fun acc p => Max.max acc (g p).toQ) a)
  | [], _, _ => rfl
  | p :: pts, h, a => by
      obtain ⟨q0, hq0⟩ := XQ.exists_fin_of_isFin (h p (List.mem_cons_self p pts))
      have ih := foldl_max_from_fin g pts (fun r hr => h r (List.mem_cons_of_mem p hr))
        (Max.max a q0)
      have htq : (g p).toQ = q0 := by rw [hq0]; rfl
      simp only [List.foldl_cons, hq0, htq, XQ.max_fin_fin]
      exact ih

theorem foldl_min_from_inf (g : Point → XQ) (p0 : Point) (rest : List Point)
    (hf : ∀ p ∈ p0 :: rest, (g p).isFin = true) :
    (p0 :: rest).foldl (fun (acc : XQ) (p : Point) => acc.min (g p)) .inf = .fin (qfoldMin g p0 rest) := by
  obtain ⟨q0, hq0⟩ := XQ.exists_fin_of_isFin (hf p0 (List.mem_cons_self p0 rest))
  have htq : (g p0).toQ = q0 := by rw [hq0]; rfl
  have := foldl_min_from_fin g rest (fun r hr => hf r (List.mem_cons_of_mem p0 hr)) q0
  simp only [List.foldl_cons, hq0, XQ.min_inf_fin, qfoldMin, htq]
  exact this

theorem foldl_max_from_ninf (g : Point → XQ) (p0 : Point) (rest : List Point)
    (hf : ∀ p ∈ p0 :: rest, (g p).isFin = true) :
    (p0 :: rest).foldl (fun (acc : XQ) (p : Point) => acc.max (g p)) .ninf = .fin (qfoldMax g p0 rest) := by
  obtain ⟨q0, hq0⟩ := XQ.exists_fin_of_isFin (hf p0 (List.mem_cons_self p0 rest))
  have htq : (g p0).toQ = q0 := by rw [hq0]; rfl
  have := foldl_max_from_fin g rest (fun r hr => hf r (List.mem_cons_of_mem p0 hr)) q0
  simp only [List.foldl_cons, hq0, XQ.max_ninf_fin, qfoldMax, htq]
  exact this

theorem foldl_qmin_le_init (f : Point → ℚ) :
    ∀ (l : List Point) (a : ℚ), l.foldl (fun acc p => Min.min acc (f p)) a ≤ a
  | [], a => le_refl a
  | p :: l, a => le_trans (foldl_qmin_le_init f l (Min.min a (f p))) (min_le_left _ _)

theorem foldl_qmin_le_mem (f : Point → ℚ) :
    ∀ (l : List Point) (a : ℚ) (p : Point), p ∈ l →
      l.foldl (fun acc p => Min.min acc (f p)) a ≤ f p := by
  intro l
  induction l with
  | nil => intro a p hp; cases hp
  | cons q l ih =>
      intro a p hp
      rcases List.mem_cons.mp hp with h | h
      · subst h
        exact le_trans (foldl_qmin_le_init f l (Min.min a (f p))) (min_le_right _ _)
      · exact ih (Min.min a (f q)) p h

theorem foldl_qmax_init_le (f : Point → ℚ) :
    ∀ (l : List Point) (a : ℚ), a ≤ l.foldl (fun acc p => Max.max acc (f p)) a
  | [], a => le_refl a
  | p :: l, a => le_trans (le_max_left _ _) (foldl_qmax_init_le f l (Max.max a (f p)))

theorem foldl_qmax_mem_le (f : Point → ℚ) :
    ∀ (l : List Point) (a : ℚ) (p : Point), p ∈ l →
      f p ≤ l.foldl (fun acc p => Max.max acc (f p)) a := by
  intro l
  induction l with
  | nil => intro a p hp; cases hp
  | cons q l ih =>
      intro a p hp
      rcases List.mem_cons.mp hp with h | h
      · subst h
        exact le_trans (le_max_right _ _) (foldl_qmax_init_le f l (Max.max a (f p)))
      · exact ih (Max.max a (f q)) p h

theorem qfoldMin_le (g : Point → XQ) (p0 : Point) (rest : List Point) :
    ∀ p ∈ p0 :: rest, qfoldMin g p0 rest ≤ (g p).toQ := by
  intro p hp
  rcases List.mem_cons.mp hp with h | h
  · subst h; exact foldl_qmin_le_init (fun q => (g q).toQ) rest ((g p).toQ)
  · exact foldl_qmin_le_mem (fun q => (g q).toQ) rest ((g p0).toQ) p h

theorem le_qfoldMax (g : Point → XQ) (p0 : Point) (rest : List Point) :
    ∀ p ∈ p0 :: rest, (g p).toQ ≤ qfoldMax g p0 rest := by
  intro p hp
  rcases List.mem_cons.mp hp with h | h
  · subst h; exact foldl_qmax_init_le (fun q => (g q).toQ) rest ((g p).toQ)
  · exact foldl_qmax_mem_le (fun q => (g q).toQ) rest ((g p0).toQ) p h

@[simp] theorem XQ.toQ_fin (q : ℚ) : (XQ.fin q).toQ = q := rfl

theorem boundsFoldAll_fin (polys : List (List Point)) (cp : Option Point)
    (p0 : Point) (rest : List Point) (hpts : allPoints polys cp = p0 :: rest)
    (hfin : ∀ p ∈ allPoints polys cp, p.finiteB = true) :
    boundsFoldAll polys cp =
      ⟨.fin (qfoldMin (fun (p : Point) => p.x) p0 rest), .fin (qfoldMin (fun (p : Point) => p.z) p0 rest),
       .fin (qfoldMax (fun (p : Point) => p.x) p0 rest), .fin (qfoldMax (fun (p : Point) => p.z) p0 rest)⟩ := by
  have hx : ∀ p ∈ p0 :: rest, ((fun (p : Point) => p.x) p).isFin = true := by
    intro p hp
    exact Point.finiteB_x (hfin p (hpts ▸ hp))
  have hz : ∀ p ∈ p0 :: rest, ((fun (p : Point) => p.z) p).isFin = true := by
    intro p hp
    exact Point.finiteB_z (hfin p (hpts ▸ hp))
  have e1 : ((p0 :: rest).foldl boundsFoldPoint ⟨.inf, .inf, .ninf, .ninf⟩).minX
      = .fin (qfoldMin (fun (p : Point) => p.x) p0 rest) := by
    rw [foldl_bounds_minX]
    exact foldl_min_from_inf (fun (p : Point) => p.x) p0 rest hx
  have e2 : ((p0 :: rest).foldl boundsFoldPoint ⟨.inf, .inf, .ninf, .ninf⟩).minY
      = .fin (qfoldMin (fun (p : Point) => p.z) p0 rest) := by
    rw [foldl_bounds_minY]
    exact foldl_min_from_inf (fun (p : Point) => p.z) p0 rest hz
  have e3 : ((p0 :: rest).foldl boundsFoldPoint ⟨.inf, .inf, .ninf, .ninf⟩).maxX
      = .fin (qfoldMax (fun (p : Point) => p.x) p0 rest) := by
    rw [foldl_bounds_maxX]
    exact foldl_max_from_ninf (fun (p : Point) => p.x) p0 rest hx
  have e4 : ((p0 :: rest).foldl boundsFoldPoint ⟨.inf, .inf, .ninf, .ninf⟩).maxY
      = .fin (qfoldMax (fun (p : Point) => p.z) p0 rest) := by
    rw [foldl_bounds_maxY]
    exact foldl_max_from_ninf (fun (p : Point) => p.z) p0 rest hz
  rw [boundsFoldAll_eq_foldl_allPoints, hpts]
  cases hres : (p0 :: rest).foldl boundsFoldPoint (⟨.inf, .inf, .ninf, .ninf⟩ : Bounds) with
  | mk a b c d =>
      rw [hres] at e1 e2 e3 e4
      simp only at e1 e2 e3 e4
      rw [e1, e2, e3, e4]

theorem expandIfPointB_fin (mx my Mx My : ℚ) :
    expandIfPointB ⟨.fin mx, .fin my, .fin Mx, .fin My⟩
      = if mx = Mx ∧ my = My then
          ⟨.fin (mx - 5), .fin (my - 5), .fin (Mx + 5), .fin (My + 5)⟩
        else ⟨.fin mx, .fin my, .fin Mx, .fin My⟩ := by
  by_cases h : mx = Mx ∧ my = My
  · obtain ⟨ha, hb⟩ := h
    simp [expandIfPointB, ha, hb]
  · have hc : (XQ.eqb (.fin mx) (.fin Mx) && XQ.eqb (.fin my) (.fin My)) = false := by
      rcases not_and_or.mp h with h1 | h1 <;> simp [h1]
    simp [expandIfPointB, hc, h]

theorem padBounds_fin (a b c d : ℚ) :
    padBounds ⟨.fin a, .fin b, .fin c, .fin d⟩
      = ⟨.fin (a - Max.max (c - a) (d - b) * (1/10)), .fin (b - Max.max (c - a) (d - b) * (1/10)),
         .fin (c + Max.max (c - a) (d - b) * (1/10)), .fin (d + Max.max (c - a) (d - b) * (1/10))⟩ := by
  simp [padBounds]

theorem pad_expand_contains (mx my Mx My qx qz : ℚ)
    (h1 : mx ≤ qx) (h2 : qx ≤ Mx) (h3 : my ≤ qz) (h4 : qz ≤ My) :
    ((padBounds (expandIfPointB ⟨.fin mx, .fin my, .fin Mx, .fin My⟩)).minX.leb (.fin qx) = true)
    ∧ ((XQ.fin qx).leb (padBounds (expandIfPointB ⟨.fin mx, .fin my, .fin Mx, .fin My⟩)).maxX = true)
    ∧ ((padBounds (expandIfPointB ⟨.fin mx, .fin my, .fin Mx, .fin My⟩)).minY.leb (.fin qz) = true)
    ∧ ((XQ.fin qz).leb (padBounds (expandIfPointB ⟨.fin mx, .fin my, .fin Mx, .fin My⟩)).maxY = true) := by
  rw [expandIfPointB_fin]
  by_cases h : mx = Mx ∧ my = My
  · rw [if_pos h, padBounds_fin]
    obtain ⟨ha, hb⟩ := h
    have e1 : (Mx + 5) - (mx - 5) = 10 := by rw [ha]; ring
    have e2 : (My + 5) - (my - 5) = 10 := by rw [hb]; ring
    rw [e1, e2, max_self]
    refine ⟨?_, ?_, ?_, ?_⟩ <;> · simp only [XQ.leb_fin_fin, decide_eq_true_eq]; linarith
  · rw [if_neg h, padBounds_fin]
    have hMx : 0 ≤ Mx - mx := by linarith
    have hMy : 0 ≤ My - my := by linarith
    have hpad : 0 ≤ Max.max (Mx - mx) (My - my) * (1/10) :=
      mul_nonneg (le_trans hMx (le_max_left _ _)) (by norm_num)
    refine ⟨?_, ?_, ?_, ?_⟩ <;> · simp only [XQ.leb_fin_fin, decide_eq_true_eq]; linarith

/-- Claim C5: `calculateBounds` applied to an empty polygon set with no
custom point returns exactly the rectangle with corners (0,0) and
(100,100); neither the degenerate expansion nor the padding is applied. -/
theorem claim5_empty_default :
    calculateBounds [] none = ⟨.fin 0, .fin 0, .fin 100, .fin 100⟩ := rfl

/-- Claim C1: for every polygon set holding at least one point, with an
optional custom point, every folded point (each polygon vertex and the
custom point when present, all with finite coordinates as produced by a
successful parse) lies inside the rectangle returned by `calculateBounds`,
after the degenerate expansion and padding steps.  The vertical axis is
the direct mapping of `z`. -/
theorem claim1_bounds_contain_all (polys : List (List Point)) (cp : Option Point)
    (hfin : ∀ p ∈ allPoints polys cp, p.finiteB = true)
    (hne : polys.flatten ≠ []) :
    ∀ p ∈ allPoints polys cp,
      ((calculateBounds polys cp).minX.leb p.x = true)
      ∧ (p.x.leb (calculateBounds polys cp).maxX = true)
      ∧ ((calculateBounds polys cp).minY.leb p.z = true)
      ∧ (p.z.leb (calculateBounds polys cp).maxY = true) := by
  intro p hp
  have hne2 : allPoints polys cp ≠ [] := by
    intro h
    exact hne (List.append_eq_nil.mp (by simpa [allPoints] using h)).1
  obtain ⟨p0, rest, hpts⟩ := List.exists_cons_of_ne_nil hne2
  have hpn : polys ≠ [] := by
    intro h
    exact hne (by simp [h])
  have hcb : calculateBounds polys cp = padBounds (expandIfPointB (boundsFoldAll polys cp)) := by
    have hlen : (polys.length == 0) = false := by
      simp [List.length_eq_zero, hpn]
    simp [calculateBounds, hlen]
  rw [hcb, boundsFoldAll_fin polys cp p0 rest hpts hfin]
  have hpf := hfin p hp
  obtain ⟨qx, hqx⟩ := XQ.exists_fin_of_isFin (Point.finiteB_x hpf)
  obtain ⟨qz, hqz⟩ := XQ.exists_fin_of_isFin (Point.finiteB_z hpf)
  have hp2 : p ∈ p0 :: rest := hpts ▸ hp
  have i1 : qfoldMin (fun (p : Point) => p.x) p0 rest ≤ qx := by
    have := qfoldMin_le (fun (p : Point) => p.x) p0 rest p hp2
    simpa [hqx] using this
  have i2 : qx ≤ qfoldMax (fun (p : Point) => p.x) p0 rest := by
    have := le_qfoldMax (fun (p : Point) => p.x) p0 rest p hp2
    simpa [hqx] using this
  have i3 : qfoldMin (fun (p : Point) => p.z) p0 rest ≤ qz := by
    have := qfoldMin_le (fun (p : Point) => p.z) p0 rest p hp2
    simpa [hqz] using this
  have i4 : qz ≤ qfoldMax (fun (p : Point) => p.z) p0 rest := by
    have := le_qfoldMax (fun (p : Point) => p.z) p0 rest p hp2
    simpa [hqz] using this
  rw [hqx, hqz]
  exact pad_expand_contains _ _ _ _ qx qz i1 i2 i3 i4

/-- Witness for C1 at a concrete input: one triangle plus a custom point. -/
theorem claim1_bounds_contain_all_w :
    ((calculateBounds [[⟨.fin 1, .fin 2⟩, ⟨.fin 3, .fin 7⟩]] (some ⟨.fin 0, .fin 4⟩)).minX.leb
        (.fin 1) = true)
    ∧ ((XQ.fin 1).leb
        (calculateBounds [[⟨.fin 1, .fin 2⟩, ⟨.fin 3, .fin 7⟩]] (some ⟨.fin 0, .fin 4⟩)).maxX
        = true)
    ∧ ((calculateBounds [[⟨.fin 1, .fin 2⟩, ⟨.fin 3, .fin 7⟩]] (some ⟨.fin 0, .fin 4⟩)).minY.leb
        (.fin 2) = true)
    ∧ ((XQ.fin 2).leb
        (calculateBounds [[⟨.fin 1, .fin 2⟩, ⟨.fin 3, .fin 7⟩]] (some ⟨.fin 0, .fin 4⟩)).maxY
        = true) :=
  claim1_bounds_contain_all [[⟨.fin 1, .fin 2⟩, ⟨.fin 3, .fin 7⟩]] (some ⟨.fin 0, .fin 4⟩)
    (by decide) (by decide) ⟨.fin 1, .fin 2⟩ (by decide)

theorem foldl_bounds_const (x0 z0 : ℚ) :
    ∀ (l : List Point), (∀ p ∈ l, p = ⟨.fin x0, .fin z0⟩) →
      l.foldl boundsFoldPoint ⟨.fin x0, .fin z0, .fin x0, .fin z0⟩
        = ⟨.fin x0, .fin z0, .fin x0, .fin z0⟩
  | [], _ => rfl
  | p :: l, h => by
      have hp : p = ⟨.fin x0, .fin z0⟩ := h p (List.mem_cons_self p l)
      have step : boundsFoldPoint ⟨.fin x0, .fin z0, .fin x0, .fin z0⟩ p
          = ⟨.fin x0, .fin z0, .fin x0, .fin z0⟩ := by
        rw [hp]
        simp [boundsFoldPoint]
      rw [List.foldl_cons, step]
      exact foldl_bounds_const x0 z0 l (fun q hq => h q (List.mem_cons_of_mem p hq))

theorem calculateBounds_const_point (polys : List (List Point)) (cp : Option Point) (x0 z0 : ℚ)
    (hall : ∀ p ∈ polys.flatten, p = ⟨.fin x0, .fin z0⟩)
    (hcp : cp = none ∨ cp = some ⟨.fin x0, .fin z0⟩)
    (hne : allPoints polys cp ≠ []) :
    calculateBounds polys cp
      = ⟨.fin (x0 - 6), .fin (z0 - 6), .fin (x0 + 6), .fin (z0 + 6)⟩ := by
  have hall2 : ∀ p ∈ allPoints polys cp, p = ⟨.fin x0, .fin z0⟩ := by
    intro p hp
    rcases List.mem_append.mp hp with h | h
    · exact hall p h
    · rcases hcp with hc | hc
      · rw [hc] at h
        cases h
      · rw [hc] at h
        simpa [Option.toList] using h
  have hcond : (polys.length == 0 && cp.isNone) = false := by
    cases hc : (polys.length == 0 && cp.isNone) with
    | false => rfl
    | true =>
        rw [Bool.and_eq_true] at hc
        have hp0 : polys = [] := by
          have := hc.1
          simpa [List.length_eq_zero] using this
        have hc0 : cp = none := Option.isNone_iff_eq_none.mp hc.2
        exact absurd (by simp [allPoints, hp0, hc0]) hne
  obtain ⟨p0, rest, hpts⟩ := List.exists_cons_of_ne_nil hne
  have hfold : boundsFoldAll polys cp = ⟨.fin x0, .fin z0, .fin x0, .fin z0⟩ := by
    rw [boundsFoldAll_eq_foldl_allPoints, hpts]
    have hp0 : p0 = ⟨.fin x0, .fin z0⟩ := hall2 p0 (hpts ▸ List.mem_cons_self p0 rest)
    have hstep : boundsFoldPoint ⟨.inf, .inf, .ninf, .ninf⟩ p0
        = ⟨.fin x0, .fin z0, .fin x0, .fin z0⟩ := by
      rw [hp0]
      simp [boundsFoldPoint, XQ.min, XQ.max]
    rw [List.foldl_cons, hstep]
    exact foldl_bounds_const x0 z0 rest
      (fun q hq => hall2 q (hpts ▸ List.mem_cons_of_mem p0 hq))
  have hpoint : calculateBounds polys cp
      = padBounds (expandIfPointB ⟨.fin x0, .fin z0, .fin x0, .fin z0⟩) := by
    rw [calculateBounds, hcond]
    simp only [Bool.false_eq_true, if_false]
    rw [hfold]
  rw [hpoint, expandIfPointB_fin, if_pos ⟨rfl, rfl⟩, padBounds_fin]
  have e1 : (x0 + 5) - (x0 - 5) = 10 := by ring
  have e2 : (z0 + 5) - (z0 - 5) = 10 := by ring
  rw [e1, e2, max_self]
  norm_num
  refine ⟨by ring, by ring, by ring, by ring⟩

/-- Claim C6: when the input consists of exactly one distinct point
(x0, z0) with finite coordinates — possibly repeated across polygons, or
supplied only as the custom point — `calculateBounds` expands the
zero-area rectangle by 5 units on every side and then pads it by
`max(10, 10) * 0.1 = 1`, producing a rectangle centred on (x0, z0)
(direct z-to-vertical mapping) that extends exactly 6 units from the
point on each side. -/
theorem claim6_single_point (polys : List (List Point)) (cp : Option Point) (x0 z0 : ℚ)
    (hall : ∀ p ∈ polys.flatten, p = ⟨.fin x0, .fin z0⟩)
    (hcp : cp = none ∨ cp = some ⟨.fin x0, .fin z0⟩)
    (hne : allPoints polys cp ≠ []) :
    calculateBounds polys cp
      = ⟨.fin (x0 - 6), .fin (z0 - 6), .fin (x0 + 6), .fin (z0 + 6)⟩ :=
  calculateBounds_const_point polys cp x0 z0 hall hcp hne

/-- Witness for C6: the single point (5, 5) supplied once as a polygon
vertex; the result is the square from (-1, -1) to (11, 11). -/
theorem claim6_single_point_w :
    calculateBounds [[⟨.fin 5, .fin 5⟩]] none
      = ⟨.fin ((5 : ℚ) - 6), .fin ((5 : ℚ) - 6), .fin ((5 : ℚ) + 6), .fin ((5 : ℚ) + 6)⟩ :=
  claim6_single_point [[⟨.fin 5, .fin 5⟩]] none 5 5 (by decide) (Or.inl rfl) (by decide)

/-- A JavaScript runtime value of the categories JSON can carry, with
numbers carried as JS numbers.  A NaN-holding value is representable here
because the validation code of `parsePolygons` runs on arbitrary JS
values and never itself rules NaN out; the real `JSON.parse` output never
contains NaN (JSON has no NaN literal), captured below by `noNaN`. -/
inductive JSValue where
  | num (n : XQ)
  | str (s : String)
  | bool (b : Bool)
  | null
  | arr (elems : List JSValue)
  | obj (fields : List (String × JSValue))

mutual

/-- No NaN occurs anywhere inside the value: true of every value the real
`JSON.parse` can return. -/
def JSValue.noNaN : JSValue → Bool
  | .num n => !n.isNaNb
  | .str _ => true
  | .bool _ => true
  | .null => true
  | .arr xs => noNaNList xs
  | .obj fs => noNaNFields fs

/-- The noNaN check over a list of values. -/
def noNaNList : List JSValue → Bool
  | [] => true
  | v :: vs => v.noNaN && noNaNList vs

/-- The noNaN check over object fields. -/
def noNaNFields : List (String × JSValue) → Bool
  | [] => true
  | f :: fs => f.2.noNaN && noNaNFields fs

end

/-- The call `point.hasOwnProperty(k)` as used by the validation loop: a
TypeError when the receiver is null, false on primitives and arrays for
the keys used here, a field lookup on objects. -/
def hasOwnProp (v : JSValue) (k : String) : Except String Bool :=
  match v with
  | .null => .error "Cannot read properties of null (reading hasOwnProperty)"
  | .obj fs => .ok (fs.any (fun f => f.1 == k))
  | _ => .ok false

/-- The member access `point.k` (none models undefined). -/
def getField (v : JSValue) (k : String) : Option JSValue :=
  match v with
  | .obj fs => List.lookup k fs
  | _ => none

/-- The per-point checks inside `parsePolygons` (App.tsx lines 145-156):
the `hasOwnProperty` presence test for `x` and `z`, then the
`typeof ... !== number` test, yielding the typed point on success.
Thrown errors are message strings, as in the source. -/
def validatePoint (i j : Nat) (p : JSValue) : Except String Point :=
  match hasOwnProp p "x", hasOwnProp p "z" with
  | .error m, _ => .error m
  | _, .error m => .error m
  | .ok hx, .ok hz =>
      if !hx || !hz then
        .error (s!"Point {j} in polygon {i} must have x and z properties")
      else
        match getField p "x", getField p "z" with
        | some (.num nx), some (.num nz) => .ok ⟨nx, nz⟩
        | _, _ => .error (s!"Point {j} in polygon {i} must have numeric x and z values")

/-- The inner `forEach` over the points of polygon `i`, with point index
`j` counting up; the first thrown error aborts the loop. -/
def validatePoints (i : Nat) : Nat → List JSValue → Except String (List Point)
  | _, [] => .ok []
  | j, p :: rest =>
      match validatePoint i j p with
      | .error m => .error m
      | .ok pt =>
          match validatePoints i (j + 1) rest with
          | .error m => .error m
          | .ok pts => .ok (pt :: pts)

/-- The `Array.isArray(polygon)` check and the inner loop for polygon `i`. -/
def validatePolygon (i : Nat) (poly : JSValue) : Except String (List Point) :=
  match poly with
  | .arr pts => validatePoints i 0 pts
  | _ => .error (s!"Polygon {i} must be an array")

/-- The outer `forEach` over the polygons, with polygon index `i`. -/
def validatePolygonList : Nat → List JSValue → Except String (List (List Point))
  | _, [] => .ok []
  | i, poly :: rest =>
      match validatePolygon i poly with
      | .error m => .error m
      | .ok ps =>
          match validatePolygonList (i + 1) rest with
          | .error m => .error m
          | .ok rest2 => .ok (ps :: rest2)

/-- The `Array.isArray(parsed)` check plus the validation loops; on
success the function returns the parsed value, viewed at its checked
type. -/
def validateParsed (v : JSValue) : Except String (List (List Point)) :=
  match v with
  | .arr polys => validatePolygonList 0 polys
  | _ => .error "Input must be an array"

/-- Shallow embedding of `parsePolygons` (App.tsx lines 133-163).  The
outcome of the external `JSON.parse` call is supplied as the argument
(`Except.error` carrying the underlying syntax-error message).  Both a
syntax error and a validation error end in the single catch block, which
rethrows them wrapped as `Invalid JSON format: ` plus the inner message;
the result type carries errors only as that message string. -/
def parsePolygons (jsonResult : Except String JSValue) : Except String (List (List Point)) :=
  match jsonResult with
  | .error m => .error ("Invalid JSON format: " ++ m)
  | .ok v =>
      match validateParsed v with
      | .error m => .error ("Invalid JSON format: " ++ m)
      | .ok ps => .ok ps

/-- Claim C10: every failure of `parsePolygons` — syntax error from the
underlying parse, non-array top level, non-array polygon element, missing
field, or non-numeric field — is surfaced as an error message beginning
with `Invalid JSON format: `, since validation failures are rethrown by
the same catch handler as syntax errors; the categories differ only in
the wrapped message text, the error type being a bare string. -/
theorem claim10_error_wrapped (r : Except String JSValue) (m : String)
    (h : parsePolygons r = .error m) :
    ∃ rest, m = "Invalid JSON format: " ++ rest := by
  cases r with
  | error e =>
      refine ⟨e, ?_⟩
      simp [parsePolygons] at h
      exact h.symm
  | ok v =>
      cases hv : validateParsed v with
      | error e =>
          refine ⟨e, ?_⟩
          simp [parsePolygons, hv] at h
          exact h.symm
      | ok ps =>
          simp [parsePolygons, hv] at h

/-- Witness for C10 at a concrete failing input (a syntax error). -/
theorem claim10_error_wrapped_w :
    ∃ rest, ("Invalid JSON format: " ++ "Unexpected token") = "Invalid JSON format: " ++ rest :=
  claim10_error_wrapped (Except.error "Unexpected token")
    ("Invalid JSON format: " ++ "Unexpected token") rfl

/-- Counterexample to C4 as stated: a point whose `x` value is NaN (a
value of numeric type) passes validation unchanged — the
`typeof point.x !== number` check accepts NaN, so validation does not
fail with a field error and the NaN coordinate is returned. -/
theorem claim4_nan_passes_validation_cex :
    parsePolygons (.ok (.arr [.arr [.obj [("x", .num .nan), ("z", .num (.fin 0))]]]))
      = .ok [[⟨.nan, .fin 0⟩]] := rfl

theorem noNaNFields_lookup : ∀ (fs : List (String × JSValue)),
    noNaNFields fs = true → ∀ (k : String) (v : JSValue),
      List.lookup k fs = some v → v.noNaN = true := by
  intro fs
  induction fs with
  | nil => intro _ k v hv; cases hv
  | cons f fs ih =>
      intro hnn k v hv
      rw [noNaNFields] at hnn
      rw [Bool.and_eq_true] at hnn
      rw [List.lookup] at hv
      by_cases hk : (k == f.1) = true
      · rw [hk] at hv
        simp at hv
        rw [← hv]
        exact hnn.1
      · rw [Bool.eq_false_iff.mpr hk] at hv
        simp at hv
        exact ih hnn.2 k v hv

theorem validatePoint_noNaN (i j : Nat) (p : JSValue) (pt : Point)
    (hnn : p.noNaN = true) (h : validatePoint i j p = .ok pt) :
    pt.x.isNaNb = false ∧ pt.z.isNaNb = false := by
  cases p with
  | num n => simp [validatePoint, hasOwnProp] at h
  | str s => simp [validatePoint, hasOwnProp] at h
  | bool b => simp [validatePoint, hasOwnProp] at h
  | null => simp [validatePoint, hasOwnProp] at h
  | arr xs => simp [validatePoint, hasOwnProp] at h
  | obj fs =>
      rw [JSValue.noNaN] at hnn
      rw [validatePoint] at h
      simp only [hasOwnProp] at h
      split at h
      · cases h
      · split at h
        · rename_i nx nz hlx hlz
          injection h with h2
          have hxn := noNaNFields_lookup fs hnn "x" (.num nx) (by
            simpa [getField] using hlx)
          have hzn := noNaNFields_lookup fs hnn "z" (.num nz) (by
            simpa [getField] using hlz)
          rw [JSValue.noNaN] at hxn hzn
          rw [← h2]
          exact ⟨by simpa using hxn, by simpa using hzn⟩
        · cases h

theorem validatePoints_noNaN (i : Nat) : ∀ (pts : List JSValue) (j : Nat)
    (l : List Point), noNaNList pts = true → validatePoints i j pts = .ok l →
    ∀ pt ∈ l, pt.x.isNaNb = false ∧ pt.z.isNaNb = false := by
  intro pts
  induction pts with
  | nil =>
      intro j l _ h pt hpt
      rw [validatePoints] at h
      injection h with h2
      rw [← h2] at hpt
      cases hpt
  | cons p rest ih =>
      intro j l hnn h pt hpt
      rw [noNaNList, Bool.and_eq_true] at hnn
      rw [validatePoints] at h
      split at h
      · cases h
      · rename_i pt0 hpt0
        split at h
        · cases h
        · rename_i pts0 hpts0
          injection h with h2
          rw [← h2] at hpt
          rcases List.mem_cons.mp hpt with he | he
          · rw [he]
            exact validatePoint_noNaN i j p pt0 hnn.1 hpt0
          · exact ih (j + 1) pts0 hnn.2 hpts0 pt he

theorem validatePolygon_noNaN (i : Nat) (poly : JSValue) (l : List Point)
    (hnn : poly.noNaN = true) (h : validatePolygon i poly = .ok l) :
    ∀ pt ∈ l, pt.x.isNaNb = false ∧ pt.z.isNaNb = false := by
  cases poly with
  | arr pts =>
      rw [JSValue.noNaN] at hnn
      rw [validatePolygon] at h
      exact validatePoints_noNaN i pts 0 l hnn h
  | num n => cases h
  | str s => cases h
  | bool b => cases h
  | null => cases h
  | obj fs => cases h

theorem validatePolygonList_noNaN : ∀ (polys : List JSValue) (i : Nat)
    (ps : List (List Point)), noNaNList polys = true →
    validatePolygonList i polys = .ok ps →
    ∀ poly ∈ ps, ∀ pt ∈ poly, pt.x.isNaNb = false ∧ pt.z.isNaNb = false := by
  intro polys
  induction polys with
  | nil =>
      intro i ps _ h poly hpoly
      rw [validatePolygonList] at h
      injection h with h2
      rw [← h2] at hpoly
      cases hpoly
  | cons p rest ih =>
      intro i ps hnn h poly hpoly
      rw [noNaNList, Bool.and_eq_true] at hnn
      rw [validatePolygonList] at h
      split at h
      · cases h
      · rename_i l0 hl0
        split at h
        · cases h
        · rename_i ps0 hps0
          injection h with h2
          rw [← h2] at hpoly
          rcases List.mem_cons.mp hpoly with he | he
          · rw [he]
            exact validatePolygon_noNaN i p l0 hnn.1 hl0
          · exact ih (i + 1) ps0 hnn.2 hps0 poly he

/-- Claim C4 amended: the validation itself does not reject NaN (its
`typeof` check accepts it — see the counterexample); nonetheless a NaN
coordinate can never enter a polygon set parsed from JSON text, because
`JSON.parse` output never contains NaN (JSON has no NaN literal, the
`noNaN` hypothesis), and every coordinate of a validated point is copied
from a number inside that output. -/
theorem claim4_no_nan_in_parsed (v : JSValue) (ps : List (List Point))
    (hnn : v.noNaN = true) (h : parsePolygons (.ok v) = .ok ps) :
    ∀ poly ∈ ps, ∀ pt ∈ poly, pt.x.isNaNb = false ∧ pt.z.isNaNb = false := by
  rw [parsePolygons] at h
  cases hv : validateParsed v with
  | error e => rw [hv] at h; cases h
  | ok ps2 =>
      rw [hv] at h
      injection h with h2
      rw [← h2]
      cases v with
      | arr polys =>
          rw [JSValue.noNaN] at hnn
          rw [validateParsed] at hv
          exact validatePolygonList_noNaN polys 0 ps2 hnn hv
      | num n => cases hv
      | str s => cases hv
      | bool b => cases hv
      | null => cases hv
      | obj fs => cases hv

/-- Witness for the amended C4 at a concrete parse and a concrete point. -/
theorem claim4_no_nan_in_parsed_w :
    (⟨.fin 1, .fin 2⟩ : Point).x.isNaNb = false
    ∧ (⟨.fin 1, .fin 2⟩ : Point).z.isNaNb = false :=
  claim4_no_nan_in_parsed
    (.arr [.arr [.obj [("x", .num (.fin 1)), ("z", .num (.fin 2))]]])
    [[⟨.fin 1, .fin 2⟩]] (by decide) rfl
    [⟨.fin 1, .fin 2⟩] (by decide) ⟨.fin 1, .fin 2⟩ (by decide)

/-- JS whitespace as stripped by `String.prototype.trim` and skipped by
`parseFloat` (the common characters; exotic Unicode space characters are
not modelled). -/
def isJsSpace (c : Char) : Bool :=
  c = ' ' || c = '\t' || c = '\n' || c = '\r' || c = '\x0b' || c = '\x0c'

/-- JS `s.trim()`, modelled over the character list. -/
def jsTrim (s : String) : String :=
  ⟨((s.data.dropWhile isJsSpace).reverse.dropWhile isJsSpace).reverse⟩

/-- The component state of `PolygonVisualizer` that the modelled handlers
read or write (App.tsx lines 10-36): the polygon set, the raw input text,
the error banner, the two coordinate field strings, the custom point, the
stored view box and the pan offset. -/
structure AppState where
  polygons : List (List Point)
  inputText : String
  error : String
  xCoordinate : String
  zCoordinate : String
  customPoint : Option Point
  viewBox : ViewBox
  panOffset : XQ × XQ
deriving DecidableEq

/-- The initial `useState` values: everything empty, view box
`{0, 0, 100, 100}`, pan offset `{0, 0}`. -/
def initState : AppState :=
  ⟨[], "", "", "", "", none, ⟨.fin 0, .fin 0, .fin 100, .fin 100⟩, (.fin 0, .fin 0)⟩

/-- Shallow embedding of `updateViewBox` (App.tsx lines 119-131): store
the bounds-derived view box for the given polygons and custom point and
reset the pan offset. -/
def updateViewBox (polygons : List (List Point)) (customPoint : Option Point)
    (s : AppState) : AppState :=
  { s with viewBox := viewBoxOf polygons customPoint, panOffset := (.fin 0, .fin 0) }

/-- Shallow embedding of `handleInputChange` (App.tsx lines 165-183).
`JSON.parse` is an external library call, so its outcome on the given
text is supplied as the `parsed` argument: `handleInputChange text parsed
s` is the state after the handler runs on `text` when `JSON.parse text`
would produce `parsed`.  The handler stores the text, clears the error,
and then: blank text clears the polygons and refits the view; a
successful parse stores the polygons and refits the view; a parse failure
stores the error message and clears the polygons without touching the
view box. -/
def handleInputChange (text : String) (parsed : Except String JSValue)
    (s : AppState) : AppState :=
  let s1 := { s with inputText := text, error := "" }
  if jsTrim text == "" then
    updateViewBox [] s1.customPoint { s1 with polygons := [] }
  else
    match parsePolygons parsed with
    | .ok ps => updateViewBox ps s1.customPoint { s1 with polygons := ps }
    | .error m => { s1 with error := m, polygons := [] }

theorem handleInputChange_ok (text : String) (parsed : Except String JSValue)
    (s : AppState) (ps : List (List Point))
    (ht : (jsTrim text == "") = false) (hp : parsePolygons parsed = .ok ps) :
    handleInputChange text parsed s
      = { s with
          inputText := text
          error := ""
          polygons := ps
          viewBox := viewBoxOf ps s.customPoint
          panOffset := (.fin 0, .fin 0) } := by
  simp [handleInputChange, updateViewBox, ht, hp]

theorem handleInputChange_fail (text : String) (parsed : Except String JSValue)
    (s : AppState) (m : String)
    (ht : (jsTrim text == "") = false) (hp : parsePolygons parsed = .error m) :
    handleInputChange text parsed s
      = { s with inputText := text, error := m, polygons := [] } := by
  simp [handleInputChange, ht, hp]

/-- Counterexample to C2 as stated: after a successful parse of one
polygon, feeding a failing input does not retain the previously valid
polygon set — it clears it to empty. -/
theorem claim2_retained_cex :
    (handleInputChange "bad" (Except.error "Unexpected token b in JSON")
        (handleInputChange "[[{x:1,z:2}]]"
          (Except.ok (.arr [.arr [.obj [("x", .num (.fin 1)), ("z", .num (.fin 2))]]]))
          initState)).polygons
      ≠ (handleInputChange "[[{x:1,z:2}]]"
          (Except.ok (.arr [.arr [.obj [("x", .num (.fin 1)), ("z", .num (.fin 2))]]]))
          initState).polygons := by decide

/-- Claim C2 amended: on any parse or validation failure with nonblank
text, no partial polygon set is produced — the polygon set is cleared to
empty (the fail-closed policy; the previous set is NOT retained) while
only the error message is surfaced; the custom point and the stored view
box are untouched. -/
theorem claim2_fail_clears (text : String) (parsed : Except String JSValue)
    (s : AppState) (m : String)
    (ht : (jsTrim text == "") = false)
    (hp : parsePolygons parsed = .error m) :
    (handleInputChange text parsed s).polygons = []
    ∧ (handleInputChange text parsed s).error = m
    ∧ (handleInputChange text parsed s).customPoint = s.customPoint
    ∧ (handleInputChange text parsed s).viewBox = s.viewBox := by
  simp [handleInputChange, ht, hp]

/-- Witness for the amended C2 at a concrete failing edit. -/
theorem claim2_fail_clears_w :
    (handleInputChange "bad" (Except.error "x") initState).polygons = []
    ∧ (handleInputChange "bad" (Except.error "x") initState).error
        = "Invalid JSON format: " ++ "x"
    ∧ (handleInputChange "bad" (Except.error "x") initState).customPoint
        = initState.customPoint
    ∧ (handleInputChange "bad" (Except.error "x") initState).viewBox
        = initState.viewBox :=
  claim2_fail_clears "bad" (Except.error "x") initState
    ("Invalid JSON format: " ++ "x") (by decide) rfl

/-- Counterexample to C3 as stated: after a successful parse of a
single-point polygon, a parse failure clears the polygons but leaves the
stored view box at its old value, which does not equal the view box
computed from the new (empty) state — the stored view box is not always
the pure-function image of the current state. -/
theorem claim3_stale_viewbox_cex :
    (handleInputChange "bad" (Except.error "oops")
        (handleInputChange "[[{x:0,z:0}]]"
          (Except.ok (.arr [.arr [.obj [("x", .num (.fin 0)), ("z", .num (.fin 0))]]]))
          initState)).viewBox
      ≠ viewBoxOf
          (handleInputChange "bad" (Except.error "oops")
            (handleInputChange "[[{x:0,z:0}]]"
              (Except.ok (.arr [.arr [.obj [("x", .num (.fin 0)), ("z", .num (.fin 0))]]]))
              initState)).polygons
          (handleInputChange "bad" (Except.error "oops")
            (handleInputChange "[[{x:0,z:0}]]"
              (Except.ok (.arr [.arr [.obj [("x", .num (.fin 0)), ("z", .num (.fin 0))]]]))
              initState)).customPoint := by
  have e1 : parsePolygons (Except.ok (.arr [.arr [.obj [("x", .num (.fin 0)),
      ("z", .num (.fin 0))]]])) = Except.ok [[(⟨.fin 0, .fin 0⟩ : Point)]] := rfl
  have e2 : (jsTrim "[[{x:0,z:0}]]" == "") = false := by decide
  have e3 : (jsTrim "bad" == "") = false := by decide
  have e4 : parsePolygons (Except.error "oops")
      = Except.error ("Invalid JSON format: " ++ "oops") := rfl
  have hB : calculateBounds [[(⟨.fin 0, .fin 0⟩ : Point)]] none
      = ⟨.fin ((0 : ℚ) - 6), .fin ((0 : ℚ) - 6), .fin ((0 : ℚ) + 6), .fin ((0 : ℚ) + 6)⟩ :=
    calculateBounds_const_point [[⟨.fin 0, .fin 0⟩]] none 0 0 (by decide) (Or.inl rfl)
      (by decide)
  have hL : viewBoxOf [[(⟨.fin 0, .fin 0⟩ : Point)]] none
      = ⟨.fin ((0 : ℚ) - 6), .fin ((0 : ℚ) - 6),
         .fin (((0 : ℚ) + 6) - ((0 : ℚ) - 6)), .fin (((0 : ℚ) + 6) - ((0 : ℚ) - 6))⟩ := by
    simp only [viewBoxOf, hB]
    simp
  rw [handleInputChange_ok _ _ _ _ e2 e1, handleInputChange_fail _ _ _ _ e3 e4]
  simp only [initState]
  simp only [hL]
  intro hc
  have h1 := congrArg ViewBox.minX hc
  simp [viewBoxOf, calculateBounds] at h1

/-- Claim C3 amended: the view box is recomputed synchronously as a pure
function of the new (polygons, custom point) pair on the empty-text clear
and on every successful parse; but on a parse failure the polygon set is
cleared while the view box keeps its previous value, so the stored view
box does not track the current state through the failure path. -/
theorem claim3_viewbox_sync (text : String) (parsed : Except String JSValue)
    (s : AppState) :
    ((jsTrim text == "") = true →
      (handleInputChange text parsed s).viewBox
        = viewBoxOf (handleInputChange text parsed s).polygons
            (handleInputChange text parsed s).customPoint)
    ∧ (∀ ps, (jsTrim text == "") = false → parsePolygons parsed = .ok ps →
      (handleInputChange text parsed s).viewBox
        = viewBoxOf (handleInputChange text parsed s).polygons
            (handleInputChange text parsed s).customPoint)
    ∧ (∀ m, (jsTrim text == "") = false → parsePolygons parsed = .error m →
      (handleInputChange text parsed s).viewBox = s.viewBox
      ∧ (handleInputChange text parsed s).polygons = []) := by
  refine ⟨?_, ?_, ?_⟩
  · intro ht
    simp [handleInputChange, updateViewBox, ht]
  · intro ps ht hp
    simp [handleInputChange, updateViewBox, ht, hp]
  · intro m ht hp
    simp [handleInputChange, updateViewBox, ht, hp]

/-- Witness for the amended C3: the empty-text clear recomputes the view
box from the new state. -/
theorem claim3_viewbox_sync_w :
    (handleInputChange "" (Except.error "e") initState).viewBox
      = viewBoxOf (handleInputChange "" (Except.error "e") initState).polygons
          (handleInputChange "" (Except.error "e") initState).customPoint :=
  (claim3_viewbox_sync "" (Except.error "e") initState).1 (by decide)

/-- Shallow embedding of `handleZoomIn` (App.tsx lines 208-210) on the
zoom value: `min(prev * 1.5, 10)`. -/
def handleZoomIn (prev : ℚ) : ℚ := Min.min (prev * 1.5) 10

/-- Shallow embedding of `handleZoomOut` (App.tsx lines 212-214) on the
zoom value: `max(prev / 1.5, 0.1)`. -/
def handleZoomOut (prev : ℚ) : ℚ := Max.max (prev / 1.5) 0.1

/-- The three zoom events a user can trigger: the two buttons and the
reset (which sets zoom back to 1). -/
inductive ZoomOp where
  | zin : ZoomOp
  | zout : ZoomOp
  | zreset : ZoomOp

/-- One zoom event applied to the current zoom value. -/
def applyZoom (z : ℚ) : ZoomOp → ℚ
  | .zin => handleZoomIn z
  | .zout => handleZoomOut z
  | .zreset => 1

/-- The zoom value reached from the initial zoom of 1 by a sequence of
zoom events. -/
def runZoom (ops : List ZoomOp) : ℚ := ops.foldl applyZoom 1

theorem foldl_zoom_bounds : ∀ (ops : List ZoomOp) (z : ℚ),
    1/10 ≤ z → z ≤ 10 →
    1/10 ≤ ops.foldl applyZoom z ∧ ops.foldl applyZoom z ≤ 10
  | [], _, h1, h2 => ⟨h1, h2⟩
  | op :: ops, z, h1, h2 => by
      rw [List.foldl_cons]
      refine foldl_zoom_bounds ops (applyZoom z op) ?_ ?_
      · cases op with
        | zin =>
            show 1/10 ≤ Min.min (z * 1.5) 10
            apply le_min
            · nlinarith
            · norm_num
        | zout =>
            show 1/10 ≤ Max.max (z / 1.5) 0.1
            apply le_trans ?_ (le_max_right _ _)
            norm_num
        | zreset =>
            show (1/10 : ℚ) ≤ 1
            norm_num
      · cases op with
        | zin =>
            show Min.min (z * 1.5) 10 ≤ 10
            exact min_le_right _ _
        | zout =>
            show Max.max (z / 1.5) 0.1 ≤ 10
            apply max_le
            · rw [div_le_iff₀ (by norm_num : (0:ℚ) < 1.5)]
              nlinarith
            · norm_num
        | zreset =>
            show (1 : ℚ) ≤ 10
            norm_num

/-- Claim C7: every zoom value reachable from the initial zoom 1 by any
sequence of zoom-in (`min(z * 1.5, 10)`), zoom-out (`max(z / 1.5, 0.1)`)
and reset (`z := 1`) events stays within [0.1, 10]; in particular it is
never zero, so the `width / zoom` and `height / zoom` divisions of the
effective view never divide by zero. -/
theorem claim7_zoom_bounds (ops : List ZoomOp) :
    1/10 ≤ runZoom ops ∧ runZoom ops ≤ 10 ∧ runZoom ops ≠ 0 := by
  have h := foldl_zoom_bounds ops 1 (by norm_num) (by norm_num)
  refine ⟨h.1, h.2, ?_⟩
  intro hz
  rw [runZoom] at hz
  rw [hz] at h
  have := h.1
  norm_num at this

/-- The per-gesture constants read by `handleMouseMove`: the stored view
box dimensions, the zoom, and the pixel size of the rendering surface
(`getBoundingClientRect`). -/
structure DragEnv where
  vbWidth : XQ
  vbHeight : XQ
  zoom : XQ
  rectWidth : XQ
  rectHeight : XQ

/-- The drag-gesture state: the `isDragging` flag, the stored anchor
(`dragStart`, in client pixel coordinates), and the accumulated pan
offset in data-space units. -/
structure DragState where
  isDragging : Bool
  dragStart : Option (XQ × XQ)
  panOffset : XQ × XQ
deriving DecidableEq

/-- Shallow embedding of `handleMouseMove` (App.tsx lines 276-297): when
dragging with a recorded anchor, take the pixel delta from the anchor,
scale it by `(viewBox.width / zoom) / rect.width` (and the height
analogue), subtract the scaled delta from the pan offset, and move the
anchor to the current pointer position; otherwise do nothing. -/
def handleMouseMove (env : DragEnv) (s : DragState) (clientX clientY : XQ) : DragState :=
  match s.isDragging, s.dragStart with
  | true, some start =>
      let deltaX := clientX.sub start.1
      let deltaY := clientY.sub start.2
      let scaleX := (env.vbWidth.div env.zoom).div env.rectWidth
      let scaleY := (env.vbHeight.div env.zoom).div env.rectHeight
      { s with
        panOffset := ((s.panOffset.1).sub (deltaX.mul scaleX),
                      (s.panOffset.2).sub (deltaY.mul scaleY))
        dragStart := some (clientX, clientY) }
  | _, _ => s

/-- Claim C8: with a fixed finite view box, nonzero zoom and nonzero
surface pixel size, dragging by screen delta (dx, dy) and then by
(dx2, dy2) from the updated anchor accumulates exactly the same pan
offset as a single drag by (dx+dx2, dy+dy2) from the original anchor:
the incremental-anchor update is additive in the deltas. -/
theorem claim8_drag_linear (w h zq rw rh px py ax ay dx dy dx2 dy2 : ℚ)
    (hz : zq ≠ 0) (hrw : rw ≠ 0) (hrh : rh ≠ 0)
    (s : DragState) (hd : s.isDragging = true)
    (hs : s.dragStart = some (.fin ax, .fin ay))
    (hp : s.panOffset = (.fin px, .fin py)) :
    (handleMouseMove ⟨.fin w, .fin h, .fin zq, .fin rw, .fin rh⟩
        (handleMouseMove ⟨.fin w, .fin h, .fin zq, .fin rw, .fin rh⟩ s
          (.fin (ax + dx)) (.fin (ay + dy)))
        (.fin (ax + dx + dx2)) (.fin (ay + dy + dy2))).panOffset
      = (handleMouseMove ⟨.fin w, .fin h, .fin zq, .fin rw, .fin rh⟩ s
          (.fin (ax + dx + dx2)) (.fin (ay + dy + dy2))).panOffset := by
  have hsc : XQ.div (XQ.div (.fin w) (.fin zq)) (.fin rw) = .fin (w / zq / rw) := by
    rw [XQ.div_fin_fin_of_ne _ _ hz, XQ.div_fin_fin_of_ne _ _ hrw]
  have hsc2 : XQ.div (XQ.div (.fin h) (.fin zq)) (.fin rh) = .fin (h / zq / rh) := by
    rw [XQ.div_fin_fin_of_ne _ _ hz, XQ.div_fin_fin_of_ne _ _ hrh]
  simp only [handleMouseMove, hd, hs, hp, hsc, hsc2, XQ.sub_fin_fin, XQ.mul_fin_fin]
  simp only [Prod.mk.injEq, XQ.fin.injEq]
  constructor <;> ring

/-- Witness for C8 at concrete numbers. -/
theorem claim8_drag_linear_w :
    (handleMouseMove ⟨.fin 100, .fin 100, .fin 1, .fin 500, .fin 400⟩
        (handleMouseMove ⟨.fin 100, .fin 100, .fin 1, .fin 500, .fin 400⟩
          ⟨true, some (.fin 0, .fin 0), (.fin 0, .fin 0)⟩
          (.fin ((0:ℚ) + 3)) (.fin ((0:ℚ) + 4)))
        (.fin ((0:ℚ) + 3 + 5)) (.fin ((0:ℚ) + 4 + 6))).panOffset
      = (handleMouseMove ⟨.fin 100, .fin 100, .fin 1, .fin 500, .fin 400⟩
          ⟨true, some (.fin 0, .fin 0), (.fin 0, .fin 0)⟩
          (.fin ((0:ℚ) + 3 + 5)) (.fin ((0:ℚ) + 4 + 6))).panOffset :=
  claim8_drag_linear 100 100 1 500 400 0 0 0 0 3 4 5 6
    (by norm_num) (by norm_num) (by norm_num)
    ⟨true, some (.fin 0, .fin 0), (.fin 0, .fin 0)⟩ rfl rfl rfl

/-- Split off the longest prefix of decimal digits. -/
def spanDigits : List Char → List Char × List Char
  | [] => ([], [])
  | c :: cs =>
      if c.isDigit then
        let r := spanDigits cs
        (c :: r.1, r.2)
      else ([], c :: cs)

/-- The natural number denoted by a digit list, most significant first. -/
def natOfDigits (ds : List Char) : Nat :=
  ds.foldl (fun acc c => acc * 10 + (c.toNat - 48)) 0

/-- The exponent denoted by an `ExponentPart` at the front of the list:
`e` or `E`, an optional sign, then digits.  When no digit follows, the
exponent contributes nothing (the longest valid prefix stops before the
`e`), matching `parseFloat`. -/
def parseExponent (cs : List Char) : Int :=
  match cs with
  | 'e' :: rest => parseSignedDigits rest
  | 'E' :: rest => parseSignedDigits rest
  | _ => 0
where
  /-- Optional sign and digits; 0 when no digits follow. -/
  parseSignedDigits : List Char → Int
    | '+' :: r => (natOfDigits (spanDigits r).1 : Int)
    | '-' :: r => -(natOfDigits (spanDigits r).1 : Int)
    | r => (natOfDigits (spanDigits r).1 : Int)

/-- The value of the longest `StrUnsignedDecimalLiteral` prefix:
`Infinity`, or integer digits with an optional fraction and exponent;
none when no valid prefix exists (`parseFloat` then yields NaN).  The
mathematical value `digits * 10 ^ exponent` is built with `mkRat` over
natural powers of ten, which represents it exactly. -/
def parseUnsignedFloat (cs : List Char) : Option XQ :=
  if cs.take 8 = "Infinity".data then some .inf
  else
    let ints := (spanDigits cs).1
    let r1 := (spanDigits cs).2
    let fracs :=
      match r1 with
      | '.' :: rdot => (spanDigits rdot).1
      | _ => []
    let r2 :=
      match r1 with
      | '.' :: rdot => (spanDigits rdot).2
      | _ => r1
    if ints = [] ∧ fracs = [] then none
    else
      let base : Nat := natOfDigits ints * 10 ^ fracs.length + natOfDigits fracs
      some (.fin (match parseExponent r2 with
        | .ofNat k => mkRat (base * 10 ^ k) (10 ^ fracs.length)
        | .negSucc k => mkRat base (10 ^ fracs.length * 10 ^ (k + 1))))

/-- Shallow model of the external `parseFloat` builtin used by
`handleCoordinateChange`: skip leading whitespace, take an optional sign,
then the longest valid decimal literal or `Infinity`; NaN when none
exists.  Trailing garbage is ignored.  Note `parseFloat("Infinity")` is
Infinity, which is not NaN. -/
def parseFloat (s : String) : XQ :=
  match s.data.dropWhile isJsSpace with
  | '+' :: rest => (parseUnsignedFloat rest).getD .nan
  | '-' :: rest =>
      match parseUnsignedFloat rest with
      | some .inf => .ninf
      | some (.fin q) => .fin (-q)
      | _ => .nan
  | cs => (parseUnsignedFloat cs).getD .nan

/-- Shallow embedding of `handleCoordinateChange` (App.tsx lines
185-202): store both field strings, parse both with `parseFloat`; when
either field is blank after trimming or parses to NaN, clear the custom
point entirely and refit the view; otherwise store the new point and
refit.  The guard is `isNaN` — there is no finiteness check. -/
def handleCoordinateChange (x z : String) (s : AppState) : AppState :=
  let s1 := { s with xCoordinate := x, zCoordinate := z }
  let xNum := parseFloat x
  let zNum := parseFloat z
  if jsTrim x == "" || jsTrim z == "" || xNum.isNaNb || zNum.isNaNb then
    updateViewBox s1.polygons none { s1 with customPoint := none }
  else
    updateViewBox s1.polygons (some ⟨xNum, zNum⟩) { s1 with customPoint := some ⟨xNum, zNum⟩ }

/-- Counterexample to C9 as stated: entering the string `Infinity` for x
and `0` for z leaves a PRESENT custom point holding a non-finite
coordinate — the guard checks `isNaN`, not finiteness, and
`parseFloat("Infinity")` is Infinity, which is not NaN.  So the custom
point can exist although one field does not hold a finite number. -/
theorem claim9_nonfinite_point_cex :
    (handleCoordinateChange "Infinity" "0" initState).customPoint
        = some ⟨.inf, .fin 0⟩
    ∧ XQ.isFin .inf = false := by
  constructor
  · decide
  · rfl

/-- Claim C9 amended: after `handleCoordinateChange`, the custom point is
present exactly when neither field is blank after trimming and neither
parses to NaN (an empty or unparseable field clears it entirely), and a
present point always carries exactly the two parsed values, never a
partial point; but the acceptance test is `isNaN`, not finiteness, so a
field reading `Infinity` is accepted and yields an infinite coordinate. -/
theorem claim9_custom_point_iff (x z : String) (s : AppState) :
    ((handleCoordinateChange x z s).customPoint.isSome
      = !(jsTrim x == "" || jsTrim z == ""
          || (parseFloat x).isNaNb || (parseFloat z).isNaNb))
    ∧ (∀ p, (handleCoordinateChange x z s).customPoint = some p
        → p = ⟨parseFloat x, parseFloat z⟩) := by
  by_cases hc : (jsTrim x == "" || jsTrim z == ""
      || (parseFloat x).isNaNb || (parseFloat z).isNaNb) = true
  · constructor
    · simp [handleCoordinateChange, updateViewBox, hc]
    · intro p hp
      simp [handleCoordinateChange, updateViewBox, hc] at hp
  · rw [Bool.not_eq_true] at hc
    constructor
    · simp [handleCoordinateChange, updateViewBox, hc]
    · intro p hp
      simp [handleCoordinateChange, updateViewBox, hc] at hp
      exact hp.symm

/-- Witness for the amended C9: the fields 1 and 2 give exactly the
parsed point. -/
theorem claim9_custom_point_iff_w :
    (⟨.fin 1, .fin 2⟩ : Point) = ⟨parseFloat "1", parseFloat "2"⟩ :=
  (claim9_custom_point_iff "1" "2" initState).2 ⟨.fin 1, .fin 2⟩ (by decide)

end PolyVis
